import Mathlib

/-!
Shallow embedding of the graphql-validation-directives library.

The embedding follows the TypeScript sources: the recursive argument
validator and the schema passes of `src/index.ts` (`unwrapType`,
`markValidateInputObjectRecursive`, `validateRecursive`,
`validateFieldArguments`, `wrapValidatedFieldResolvers`), the error
classes of `src/validation-error.ts` and `src/aggregate-validation-error.ts`,
and the rule-chain construction of `src/base-validation-directive.ts`.

Modelling conventions:
- GraphQL type references are an inductive `GType`; named input-object
  types are resolved through an environment (a list of `InputObjectType`),
  since a GraphQL schema has one instance per type name, object identity
  of `GraphQLInputObjectType` instances coincides with name equality.
- Runtime values are the inductive `Value`; the JavaScript `null` and
  `undefined` are both `Value.null` (the source treats them alike).
- A validation function models the `ValidateFn` callback: it receives the
  value and the current path and either returns `none` (the callback
  returned normally) or `some msg` (the callback threw an `Error` whose
  message is `msg`).  The `type`, `source`, `args`, `context` and `info`
  parameters of the callback are passed through unchanged by the library
  and are elided.
- The marker `markValidateInputObjectRecursive` is given explicit fuel,
  because the JavaScript function is not structurally recursive; running
  out of fuel (`none`) models non-termination of the source.
-/

namespace GQLValid

/-- The ValidationTarget union type of src/types.ts. -/
inductive ValidationTarget where
  | list
  | object
  | scalar
deriving DecidableEq, BEq, Repr

/-- Runtime argument values, as delivered by the engine to a resolver.
`null` stands for both JavaScript null and undefined. -/
inductive Value where
  | null : Value
  | scalar : String → Value
  | list : List Value → Value
  | obj : List (String × Value) → Value

/-- GraphQL type references: scalars (and enums), named input-object
types, list wrappers and non-null wrappers. -/
inductive GType where
  | scalar : String → GType
  | inputObject : String → GType
  | list : GType → GType
  | nonNull : GType → GType
deriving DecidableEq, Repr

/-- The unwrapType helper of src/index.ts: strip one NonNull wrapper,
then one List wrapper.  Deeper wrappers are left in place, exactly as in
the source. -/
def unwrapType (type : GType) : GType :=
  let result := match type with
    | GType.nonNull inner => inner
    | t => t
  match result with
  | GType.list inner => inner
  | t => t

/-- The ValidateFn callback of src/types.ts, reduced to the data the
library inspects: the value and the path; `some msg` models a thrown
`Error` with message `msg`. -/
def ValidateFn : Type := Value → String → Option String

/-- One entry of an extensions.validations rule chain. -/
structure Validation where
  target : ValidationTarget
  listDepth : Nat
  fn : ValidateFn

/-- The ValidationError class of src/validation-error.ts: the message of
the inner error, plus the structural path. -/
structure ValidationError where
  message : String
  path : String
deriving DecidableEq, Repr

/-- One field of an input-object type.  `validations` models
`field.extensions.validations`: `none` when the extension property was
never defined, `some chain` otherwise. -/
structure InputField where
  name : String
  type : GType
  validations : Option (List Validation)

/-- One input-object type of the schema.  `validations` models the
type-level `extensions.validations` chain (defaulted to `[]` as the
source does with `?? []`), `validate` the `extensions.validate` mark. -/
structure InputObjectType where
  name : String
  fields : List InputField
  validations : List Validation
  validate : Bool

/-- Resolve a named input-object type in the schema environment. -/
def findType (env : List InputObjectType) (name : String) : Option InputObjectType :=
  env.find? (fun t => t.name == name)

/-- JavaScript property lookup `value[name]` on an object literal:
first binding wins; `none` models `undefined`. -/
def lookupField : List (String × Value) → String → Option Value
  | [], _ => none
  | (k, v) :: rest, name => if k == name then some v else lookupField rest name

/-- The try/catch reduce loops of validateRecursive: run each rule of the
chain in order against the value; a throwing rule appends one
ValidationError at the current path and later rules still run. -/
def runRules (rules : List Validation) (value : Value) (path : String) :
    List ValidationError :=
  rules.foldl
    (fun errors v =>
      match v.fn value path with
      | none => errors
      | some msg => errors ++ [ValidationError.mk msg path])
    []

mutual

/-- The validateRecursive function of src/index.ts.  Null and undefined
values short-circuit; one NonNull wrapper is stripped; list types run the
depth-matching list rules and then descend into items; input-object types
run the object rules of the chain plus the type, then descend into fields
when the validate mark is set; anything else is a scalar leaf.
A non-array value at a list position would make the source throw a
TypeError inside `value.reduce`; the engine coercion rules that out, so
the embedding returns no violations there. -/
def validateRecursive (env : List InputObjectType) (path : String)
    (value : Value) (type : GType) (validations : List Validation)
    (listDepth : Nat) : List ValidationError :=
  match value with
  | Value.null => []
  | val =>
    let valueType := match type with
      | GType.nonNull inner => inner
      | t => t
    match valueType with
    | GType.list itemType =>
      let listErrors :=
        runRules
          (validations.filter
            (fun v => v.target == ValidationTarget.list && v.listDepth == listDepth))
          val path
      if listErrors.isEmpty then
        match hv : val with
        | Value.list items =>
          validateItems env path items itemType validations (listDepth + 1) 0
        | _ => []
      else listErrors
    | GType.inputObject tname =>
      match findType env tname with
      | none => []
      | some t =>
        let objectErrors :=
          runRules
            ((validations ++ t.validations).filter
              (fun v => v.target == ValidationTarget.object))
            val path
        if objectErrors.isEmpty then
          if t.validate then
            match hv : val with
            | Value.obj objFields => validateFields env path objFields t.fields
            | _ => []
          else []
        else objectErrors
    | _ =>
      runRules
        (validations.filter (fun v => v.target == ValidationTarget.scalar))
        val path
termination_by (sizeOf value, 0)
decreasing_by
  all_goals simp_wf
  · apply Prod.Lex.left
    subst hv
    omega
  · apply Prod.Lex.left
    subst hv
    omega

/-- The item loop of validateRecursive: each item is validated at path
`path[index]` with the same chain at depth + 1, results concatenated. -/
def validateItems (env : List InputObjectType) (path : String)
    (items : List Value) (itemType : GType) (validations : List Validation)
    (listDepth : Nat) (index : Nat) : List ValidationError :=
  match items with
  | [] => []
  | item :: rest =>
    validateRecursive env (path ++ "[" ++ toString index ++ "]") item itemType
        validations listDepth ++
      validateItems env path rest itemType validations listDepth (index + 1)
termination_by (sizeOf items, 0)
decreasing_by
  all_goals simp_wf
  · apply Prod.Lex.left
    omega
  · apply Prod.Lex.left
    omega

/-- The field loop of validateRecursive: each declared field is validated
at path `path.fieldName` with its own chain and depth reset to 0.  A field
absent from the value object is `undefined` in the source and its
recursive call returns [] at the null check. -/
def validateFields (env : List InputObjectType) (path : String)
    (objFields : List (String × Value)) (typeFields : List InputField) :
    List ValidationError :=
  match typeFields with
  | [] => []
  | f :: rest =>
    (match h : lookupField objFields f.name with
      | none => ([] : List ValidationError)
      | some fv =>
        validateRecursive env (path ++ "." ++ f.name) fv f.type
          (f.validations.getD []) 0) ++
      validateFields env path objFields rest
termination_by (sizeOf objFields, 1 + sizeOf typeFields)
decreasing_by
  all_goals simp_wf
  · have hlt : sizeOf fv < sizeOf objFields := by
      clear * - h
      induction objFields with
      | nil => simp [lookupField] at h
      | cons p rest ih =>
        obtain ⟨k, w⟩ := p
        simp only [lookupField] at h
        split at h
        · cases h
          simp_arith
        · have := ih h
          simp_arith
          omega
    apply Prod.Lex.left
    exact hlt
  · apply Prod.Lex.right
    simp_arith

end

/-- The `some` loop over the fields of markValidateInputObjectRecursive in
src/index.ts, parameterised over the recursive call `recur` for nested
input-object types.  A field whose unwrapped type is the type being
marked contributes false; a field whose unwrapped type is another
input-object type contributes the recursive mark of that type; any other
field contributes whether its extensions.validations property is defined.
`none` propagates fuel exhaustion of a nested call.  A named input-object
type missing from the environment cannot occur in a well-formed schema
and is treated like the instanceof test failing. -/
def markValidateFields (env : List InputObjectType)
    (recur : InputObjectType → Option Bool) (selfName : String) :
    List InputField → Option Bool
  | [] => some false
  | f :: rest =>
    match unwrapType f.type with
    | GType.inputObject n =>
      if n = selfName then markValidateFields env recur selfName rest
      else
        match findType env n with
        | some t2 =>
          match recur t2 with
          | none => none
          | some true => some true
          | some false => markValidateFields env recur selfName rest
        | none =>
          if f.validations.isSome then some true
          else markValidateFields env recur selfName rest
    | _ =>
      if f.validations.isSome then some true
      else markValidateFields env recur selfName rest

/-- The markValidateInputObjectRecursive function of src/index.ts, with
explicit fuel: the JavaScript recursion has no memoisation and no
termination guard beyond the direct self-reference test, so `none` models
a run that never returns (stack overflow).  The boolean result is the
validate mark the source stores on extensions. -/
def markValidateInputObjectRecursive (env : List InputObjectType) :
    Nat → InputObjectType → Option Bool
  | 0, _ => none
  | fuel + 1, t =>
    markValidateFields env (markValidateInputObjectRecursive env fuel) t.name
      t.fields

/-- Termination of the marker on a given type: some amount of fuel
suffices to produce a result. -/
def markTerminates (env : List InputObjectType) (t : InputObjectType) : Prop :=
  ∃ fuel b, markValidateInputObjectRecursive env fuel t = some b

/-- Modelled from the spec: the helper loop of the claimed marking
condition, checking whether some field has an unwrapped input-object type
that itself requires validation (with the same fuel discipline as the
marker, so the two can be compared). -/
def specNeedsFieldTypes (env : List InputObjectType)
    (recur : InputObjectType → Option Bool) :
    List InputField → Option Bool
  | [] => some false
  | f :: rest =>
    match unwrapType f.type with
    | GType.inputObject n =>
      match findType env n with
      | some t2 =>
        match recur t2 with
        | none => none
        | some true => some true
        | some false => specNeedsFieldTypes env recur rest
      | none => specNeedsFieldTypes env recur rest
    | _ => specNeedsFieldTypes env recur rest

/-- Modelled from the spec: "A type needs validation iff it carries a
direct object-level rule, or any field carries a rule, or any field
unwrapped type is itself a type requiring validation."  Stated as a
fuelled computation so it can be compared with the marker computed from
the source. -/
def specNeedsValidation (env : List InputObjectType) :
    Nat → InputObjectType → Option Bool
  | 0, _ => none
  | fuel + 1, t =>
    if !t.validations.isEmpty then some true
    else if t.fields.any (fun f => f.validations.isSome) then some true
    else specNeedsFieldTypes env (specNeedsValidation env fuel) t.fields

/-- The condition under which one field forces the validate mark of the
source marker, phrased propositionally; used to characterise the marker. -/
def markFieldForces (env : List InputObjectType) (selfName : String)
    (f : InputField) : Prop :=
  match unwrapType f.type with
  | GType.inputObject n =>
    ¬n = selfName ∧
      ((∃ t2, findType env n = some t2 ∧
          ∃ m, markValidateInputObjectRecursive env m t2 = some true) ∨
        (findType env n = none ∧ f.validations.isSome = true))
  | _ => f.validations.isSome = true

/-- The per-occurrence unshift loop of applyDirectiveToSchema in
src/base-validation-directive.ts: each directive occurrence, in
declaration order, is prepended to the existing rule chain. -/
def applyDirectiveOccurrences (newRules : List Validation)
    (chain : List Validation) : List Validation :=
  newRules.foldl (fun acc r => r :: acc) chain

/-- The error message of src/aggregate-validation-error.ts. -/
def ERROR_MESSAGE : String := "One or more validation errors were encountered"

/-- The error code of src/aggregate-validation-error.ts. -/
def ERROR_CODE : String := "VALIDATION_ERROR"

/-- The AggregateValidationError class: the fixed message, the fixed
extension code, and the ordered (message, path) pairs of the violations. -/
structure AggregateValidationError where
  message : String
  code : String
  validationErrors : List (String × String)
deriving DecidableEq, Repr

/-- The AggregateValidationError constructor applied to a violation
list. -/
def AggregateValidationError.ofErrors (errors : List ValidationError) :
    AggregateValidationError :=
  { message := ERROR_MESSAGE
    code := ERROR_CODE
    validationErrors := errors.map (fun err => (err.message, err.path)) }

/-- One declared argument of an object-type field. -/
structure FieldArg where
  name : String
  type : GType
deriving Repr

/-- The validation-relevant data of a GraphQLField: its declared
arguments and its extensions.argumentValidations record (`none` when the
property was never defined). -/
structure FieldData where
  args : List FieldArg
  argumentValidations : Option (List (String × List Validation))

/-- Outcome of one field resolution: either the value produced by the
resolver (which may itself encode a failure of the resolver, propagated
as-is), or the AggregateValidationError thrown by the validating
wrapper. -/
inductive Result (ρ : Type) where
  | ok : ρ → Result ρ
  | validationFailure : AggregateValidationError → Result ρ
deriving BEq

/-- A GraphQLField together with its optional resolve function.  The
resolver consumes the coerced argument record; its source, context and
info parameters are passed through unchanged by the library and are
elided. -/
structure Field (ρ : Type) where
  data : FieldData
  resolve : Option (List (String × Value) → Result ρ)

/-- The rule chain looked up for one argument name:
`(field.extensions.argumentValidations ?? {})[argumentName]`, with the
default chain [] of validateRecursive applied to an undefined entry. -/
def argumentChain (d : FieldData) (argName : String) : List Validation :=
  ((d.argumentValidations.getD []).lookup argName).getD []

/-- The error-collecting reduce of validateFieldArguments in
src/index.ts: iterate over the entries of the supplied argument record,
find the declared argument (the source uses a non-null assertion: the
engine only supplies declared arguments), and validate the value against
the argument type with the argument name as root path. -/
def validateFieldArguments (env : List InputObjectType) (d : FieldData)
    (args : List (String × Value)) : List ValidationError :=
  args.foldl
    (fun errs p =>
      match d.args.find? (fun a => a.name == p.1) with
      | none => errs
      | some argument =>
        errs ++ validateRecursive env p.1 p.2 argument.type
          (argumentChain d p.1) 0)
    []

/-- The throw at the end of validateFieldArguments: `some` is the raised
AggregateValidationError, `none` means validation passed. -/
def validateFieldArgumentsThrow (env : List InputObjectType) (d : FieldData)
    (args : List (String × Value)) : Option AggregateValidationError :=
  let errors := validateFieldArguments env d args
  if errors.isEmpty then none
  else some (AggregateValidationError.ofErrors errors)

/-- The wrapper installed by wrapValidatedFieldResolvers: validate the
arguments first; on failure raise the AggregateValidationError without
calling the original resolver, otherwise delegate to the original
resolver unchanged. -/
def wrappedResolve {ρ : Type} (env : List InputObjectType) (d : FieldData)
    (original : List (String × Value) → Result ρ)
    (args : List (String × Value)) : Result ρ :=
  match validateFieldArgumentsThrow env d args with
  | some e => Result.validationFailure e
  | none => original args

/-- The filter of wrapValidatedFieldResolvers: a field qualifies when its
extensions.argumentValidations property is defined, or some argument has
an unwrapped input-object type whose validate mark is set. -/
def fieldNeedsWrapper (env : List InputObjectType) (d : FieldData) : Bool :=
  d.argumentValidations.isSome ||
    d.args.any (fun arg =>
      match unwrapType arg.type with
      | GType.inputObject n =>
        match findType env n with
        | some t => t.validate
        | none => false
      | _ => false)

/-- The per-field action of wrapValidatedFieldResolvers: qualifying
fields with a resolve function get the validating wrapper; a field whose
resolve function is undefined is left untouched. -/
def wrapField {ρ : Type} (env : List InputObjectType) (f : Field ρ) :
    Field ρ :=
  if fieldNeedsWrapper env f.data then
    match f.resolve with
    | some original =>
      { f with resolve := some (wrappedResolve env f.data original) }
    | none => f
  else f

/-- The wrapValidatedFieldResolvers pass over all fields with
arguments. -/
def wrapValidatedFieldResolvers {ρ : Type} (env : List InputObjectType)
    (fieldsWithArguments : List (Field ρ)) : List (Field ρ) :=
  fieldsWithArguments.map (wrapField env)

/-! ### Helper lemmas -/

theorem runRules_foldl_acc (rules : List Validation) (value : Value)
    (path : String) (acc : List ValidationError) :
    rules.foldl
        (fun errors v =>
          match v.fn value path with
          | none => errors
          | some msg => errors ++ [ValidationError.mk msg path])
        acc =
      acc ++
        rules.filterMap
          (fun v => (v.fn value path).map (fun msg => ValidationError.mk msg path)) := by
  induction rules generalizing acc with
  | nil => simp
  | cons r rest ih =>
    simp only [List.foldl_cons, List.filterMap_cons]
    cases h : r.fn value path with
    | none => simp [h, ih]
    | some msg => simp [h, ih]

/-- Each rule of the chain runs in order; a throwing rule contributes one
violation at the current path and later rules still run. -/
theorem runRules_eq_filterMap (rules : List Validation) (value : Value)
    (path : String) :
    runRules rules value path =
      rules.filterMap
        (fun v => (v.fn value path).map (fun msg => ValidationError.mk msg path)) := by
  simpa using runRules_foldl_acc rules value path []

theorem validateItems_eq_enumFrom (env : List InputObjectType) (path : String)
    (items : List Value) (itemType : GType) (validations : List Validation)
    (listDepth : Nat) (index : Nat) :
    validateItems env path items itemType validations listDepth index =
      ((items.enumFrom index).map
          (fun p =>
            validateRecursive env (path ++ "[" ++ toString p.1 ++ "]") p.2
              itemType validations listDepth)).flatten := by
  induction items generalizing index with
  | nil => simp [validateItems]
  | cons item rest ih => simp [validateItems, List.enumFrom, ih]

theorem validateFields_eq_map_flatten (env : List InputObjectType)
    (path : String) (objFields : List (String × Value))
    (typeFields : List InputField) :
    validateFields env path objFields typeFields =
      (typeFields.map
          (fun f =>
            match lookupField objFields f.name with
            | none => []
            | some fv =>
              validateRecursive env (path ++ "." ++ f.name) fv f.type
                (f.validations.getD []) 0)).flatten := by
  induction typeFields with
  | nil => simp [validateFields]
  | cons f rest ih =>
    simp only [validateFields, List.map_cons, List.flatten_cons, ih]
    cases hl : lookupField objFields f.name <;> simp [hl]

/-- The scalar-leaf case of validateRecursive: every scalar-targeted rule
of the chain runs in order against the value. -/
theorem validateRecursive_scalar (env : List InputObjectType) (path : String)
    (s : String) (sname : String) (validations : List Validation)
    (listDepth : Nat) :
    validateRecursive env path (Value.scalar s) (GType.scalar sname)
        validations listDepth =
      runRules
        (validations.filter (fun v => v.target == ValidationTarget.scalar))
        (Value.scalar s) path := by
  rw [validateRecursive]
  all_goals simp

/-! ### Claims -/

/-- Claim C3: at a list node, only list-targeted rules whose declared
depth equals the current recursion depth run against the whole list; if
any fails the Validator returns just those violations and performs no
item-level descent, and if all pass every item is validated independently
at depth + 1 (at path `path[index]`) and the results are concatenated
without one item suppressing another.  Stated for a bare list type and
for a non-null-wrapped list type. -/
theorem validateRecursive_list_node (env : List InputObjectType)
    (path : String) (items : List Value) (itemType : GType)
    (validations : List Validation) (listDepth : Nat) :
    (validateRecursive env path (Value.list items) (GType.list itemType)
        validations listDepth =
      if (runRules
            (validations.filter
              (fun v =>
                v.target == ValidationTarget.list && v.listDepth == listDepth))
            (Value.list items) path).isEmpty then
        ((items.enum).map
            (fun p =>
              validateRecursive env (path ++ "[" ++ toString p.1 ++ "]") p.2
                itemType validations (listDepth + 1))).flatten
      else
        runRules
          (validations.filter
            (fun v =>
              v.target == ValidationTarget.list && v.listDepth == listDepth))
          (Value.list items) path) ∧
    validateRecursive env path (Value.list items)
        (GType.nonNull (GType.list itemType)) validations listDepth =
      validateRecursive env path (Value.list items) (GType.list itemType)
        validations listDepth := by
  constructor
  · rw [validateRecursive]
    split
    · rw [validateItems_eq_enumFrom]
      rfl
    · rfl
  · rw [validateRecursive, validateRecursive]

/-- Claim C9: a null (or undefined) value yields zero violations at its
node and at every descendant, regardless of the rules declared at or
below it: directly at any node, for a null field inside an object whose
field carries an arbitrary rule chain, and for a null item of a list
whose chain carries arbitrary scalar rules. -/
theorem validateRecursive_null (env : List InputObjectType) :
    (∀ (path : String) (type : GType) (validations : List Validation)
        (listDepth : Nat),
      validateRecursive env path Value.null type validations listDepth = []) ∧
    (∀ (chain : List Validation) (path : String),
      validateRecursive
          [InputObjectType.mk "T"
            [InputField.mk "x" (GType.scalar "String") (some chain)] [] true]
          path (Value.obj [("x", Value.null)]) (GType.inputObject "T") [] 0 =
        []) ∧
    (∀ (fns : List ValidateFn) (path : String) (sname : String),
      validateRecursive env path (Value.list [Value.null])
          (GType.list (GType.scalar sname))
          (fns.map (fun fn => Validation.mk ValidationTarget.scalar 0 fn)) 0 =
        []) := by
  refine ⟨fun path type validations listDepth => ?_, fun chain path => ?_,
    fun fns path sname => ?_⟩
  · rw [validateRecursive]
  · rw [validateRecursive]
    simp [findType, runRules, validateFields, lookupField]
    rw [validateRecursive]
    all_goals simp
  · rw [validateRecursive]
    have hfilter :
        (fns.map (fun fn => Validation.mk ValidationTarget.scalar 0 fn)).filter
            (fun v => v.target == ValidationTarget.list && v.listDepth == 0) =
          [] := by
      induction fns with
      | nil => rfl
      | cons fn rest ih =>
        rw [List.map_cons, List.filter_cons]
        have hc : (ValidationTarget.scalar == ValidationTarget.list) = false :=
          rfl
        simp [hc, ih]
    simp [hfilter, runRules, validateItems]
    rw [validateRecursive]

/-- Claim C10: a field whose resolve function is undefined gets no
validating wrapper, so its arguments are never validated and no
AggregateValidationError can be raised for it, whatever rules its
arguments carry. -/
theorem wrapField_no_resolver {ρ : Type} (env : List InputObjectType)
    (f : Field ρ) (h : f.resolve = none) : wrapField env f = f := by
  unfold wrapField
  rw [h]
  split <;> rfl

/-- Witness for claim C10: a field whose arguments carry failing rule
declarations but whose resolve function is undefined is left untouched
by the wrapping pass. -/
theorem wrapField_no_resolver_witness :
    wrapField (ρ := Nat) []
        (Field.mk
          (FieldData.mk [FieldArg.mk "a" (GType.scalar "String")]
            (some
              [("a",
                [Validation.mk ValidationTarget.scalar 0
                  (fun _ _ => some "bad")])]))
          none) =
      Field.mk
        (FieldData.mk [FieldArg.mk "a" (GType.scalar "String")]
          (some
            [("a",
              [Validation.mk ValidationTarget.scalar 0
                (fun _ _ => some "bad")])]))
        none :=
  wrapField_no_resolver [] _ rfl

/-- Claim C2: whenever validation of all arguments yields zero
violations, the wrapped resolver delegates to the original resolver and
returns exactly its result (or propagates exactly its failure). -/
theorem wrappedResolve_valid_input {ρ : Type} (env : List InputObjectType)
    (d : FieldData) (original : List (String × Value) → Result ρ)
    (args : List (String × Value))
    (h : validateFieldArguments env d args = []) :
    wrappedResolve env d original args = original args := by
  simp [wrappedResolve, validateFieldArgumentsThrow, h]

/-- Witness for claim C2: a concrete argument record that satisfies its
declared rule makes the wrapped resolver return the original result. -/
theorem wrappedResolve_valid_input_witness :
    validateFieldArguments []
        (FieldData.mk [FieldArg.mk "a" (GType.scalar "String")]
          (some
            [("a",
              [Validation.mk ValidationTarget.scalar 0
                (fun v _ =>
                  match v with
                  | Value.scalar "ok" => none
                  | _ => some "bad")])]))
        [("a", Value.scalar "ok")] =
      [] ∧
    wrappedResolve []
        (FieldData.mk [FieldArg.mk "a" (GType.scalar "String")]
          (some
            [("a",
              [Validation.mk ValidationTarget.scalar 0
                (fun v _ =>
                  match v with
                  | Value.scalar "ok" => none
                  | _ => some "bad")])]))
        (fun _ => Result.ok (42 : Nat)) [("a", Value.scalar "ok")] =
      Result.ok 42 := by
  have h :
      validateFieldArguments []
          (FieldData.mk [FieldArg.mk "a" (GType.scalar "String")]
            (some
              [("a",
                [Validation.mk ValidationTarget.scalar 0
                  (fun v _ =>
                    match v with
                    | Value.scalar "ok" => none
                    | _ => some "bad")])]))
          [("a", Value.scalar "ok")] =
        [] := by
    show
      [] ++
          validateRecursive [] "a" (Value.scalar "ok") (GType.scalar "String")
            [Validation.mk ValidationTarget.scalar 0
              (fun v _ =>
                match v with
                | Value.scalar "ok" => none
                | _ => some "bad")]
            0 =
        []
    rw [validateRecursive_scalar]
    decide
  exact ⟨h, wrappedResolve_valid_input _ _ _ _ h⟩

/-- With unique argument names, find? on the declared arguments returns
the argument itself. -/
theorem find?_declared_argument (args : List FieldArg)
    (hnd : (args.map FieldArg.name).Nodup) (a : FieldArg) (ha : a ∈ args) :
    args.find? (fun x => x.name == a.name) = some a := by
  induction args with
  | nil => cases ha
  | cons b rest ih =>
    rcases List.mem_cons.mp ha with hab | ha2
    · subst hab
      simp [List.find?_cons]
    · have hb : b.name ≠ a.name := by
        intro hcontra
        have : a.name ∈ rest.map FieldArg.name := List.mem_map_of_mem _ ha2
        rw [← hcontra] at this
        exact (List.nodup_cons.mp hnd).1 this
      rw [List.find?_cons]
      have : (b.name == a.name) = false := by
        exact beq_eq_false_iff_ne.mpr hb
      rw [this]
      exact ih (List.nodup_cons.mp hnd).2 ha2

theorem validateFieldArguments_foldl_acc (env : List InputObjectType)
    (d : FieldData) (argVal : FieldArg → Value) (rem : List FieldArg)
    (hfind : ∀ a ∈ rem, d.args.find? (fun x => x.name == a.name) = some a)
    (acc : List ValidationError) :
    (rem.map (fun a => (a.name, argVal a))).foldl
        (fun errs p =>
          match d.args.find? (fun a => a.name == p.1) with
          | none => errs
          | some argument =>
            errs ++ validateRecursive env p.1 p.2 argument.type
              (argumentChain d p.1) 0)
        acc =
      acc ++
        (rem.map
            (fun a =>
              validateRecursive env a.name (argVal a) a.type
                (argumentChain d a.name) 0)).flatten := by
  induction rem generalizing acc with
  | nil => simp
  | cons a rest ih =>
    simp only [List.map_cons, List.foldl_cons]
    rw [hfind a (List.mem_cons_self a rest)]
    rw [ih (fun x hx => hfind x (List.mem_cons_of_mem a hx))]
    simp

/-- Claim C1: with the coerced argument record listing every declared
argument in declaration order, the Validator runs against every argument
in that order with the argument name as root path, violations are
concatenated across arguments, and when any violation exists the wrapper
raises the AggregateValidationError (fixed code, ordered message/path
pairs) without invoking the original resolver - the result does not
depend on the original resolver at all. -/
theorem validateFieldArguments_declared_order (env : List InputObjectType)
    (d : FieldData) (argVal : FieldArg → Value)
    (hnd : (d.args.map FieldArg.name).Nodup) :
    validateFieldArguments env d (d.args.map (fun a => (a.name, argVal a))) =
      (d.args.map
          (fun a =>
            validateRecursive env a.name (argVal a) a.type
              (argumentChain d a.name) 0)).flatten ∧
    ∀ (ρ : Type) (original other : List (String × Value) → Result ρ),
      (d.args.map
            (fun a =>
              validateRecursive env a.name (argVal a) a.type
                (argumentChain d a.name) 0)).flatten ≠
          [] →
        wrappedResolve env d original (d.args.map (fun a => (a.name, argVal a))) =
            Result.validationFailure
              (AggregateValidationError.ofErrors
                ((d.args.map
                    (fun a =>
                      validateRecursive env a.name (argVal a) a.type
                        (argumentChain d a.name) 0)).flatten)) ∧
          (AggregateValidationError.ofErrors
              ((d.args.map
                  (fun a =>
                    validateRecursive env a.name (argVal a) a.type
                      (argumentChain d a.name) 0)).flatten)).code =
            ERROR_CODE ∧
          wrappedResolve env d original
              (d.args.map (fun a => (a.name, argVal a))) =
            wrappedResolve env d other (d.args.map (fun a => (a.name, argVal a))) := by
  have hmain :
      validateFieldArguments env d (d.args.map (fun a => (a.name, argVal a))) =
        (d.args.map
            (fun a =>
              validateRecursive env a.name (argVal a) a.type
                (argumentChain d a.name) 0)).flatten := by
    unfold validateFieldArguments
    rw
      [validateFieldArguments_foldl_acc env d argVal d.args
        (fun a ha => find?_declared_argument d.args hnd a ha) []]
    simp
  refine ⟨hmain, fun ρ original other hne => ?_⟩
  have hthrow :
      validateFieldArgumentsThrow env d
          (d.args.map (fun a => (a.name, argVal a))) =
        some
          (AggregateValidationError.ofErrors
            ((d.args.map
                (fun a =>
                  validateRecursive env a.name (argVal a) a.type
                    (argumentChain d a.name) 0)).flatten)) := by
    unfold validateFieldArgumentsThrow
    rw [hmain]
    simp [List.isEmpty_iff, hne]
  refine ⟨?_, rfl, ?_⟩
  · unfold wrappedResolve
    rw [hthrow]
  · unfold wrappedResolve
    rw [hthrow]

/-- Concrete field data for the claim C1 witness: two declared arguments,
the first carrying a rule that always fails. -/
def fieldDataW : FieldData :=
  FieldData.mk
    [FieldArg.mk "a" (GType.scalar "String"),
      FieldArg.mk "b" (GType.scalar "String")]
    (some
      [("a",
        [Validation.mk ValidationTarget.scalar 0 (fun _ _ => some "bad a")])])

/-- Witness for claim C1: both arguments are validated in declaration
order, the failing first argument produces the single violation, and the
wrapper raises the aggregate error with the fixed code instead of calling
the resolver. -/
theorem validateFieldArguments_declared_order_witness :
    validateFieldArguments [] fieldDataW
        [("a", Value.scalar "va"), ("b", Value.scalar "vb")] =
      [ValidationError.mk "bad a" "a"] ∧
    wrappedResolve [] fieldDataW (fun _ => Result.ok (7 : Nat))
        [("a", Value.scalar "va"), ("b", Value.scalar "vb")] =
      Result.validationFailure
        (AggregateValidationError.mk ERROR_MESSAGE ERROR_CODE
          [("bad a", "a")]) := by
  have h :=
    validateFieldArguments_declared_order [] fieldDataW
      (fun a => Value.scalar ("v" ++ a.name)) (by decide)
  have e1 :
      validateRecursive [] "a" (Value.scalar "va") (GType.scalar "String")
          (argumentChain fieldDataW "a") 0 =
        [ValidationError.mk "bad a" "a"] := by
    rw [validateRecursive_scalar]
    decide
  have e2 :
      validateRecursive [] "b" (Value.scalar "vb") (GType.scalar "String")
          (argumentChain fieldDataW "b") 0 =
        [] := by
    rw [validateRecursive_scalar]
    decide
  have hflat :
      (fieldDataW.args.map
          (fun a =>
            validateRecursive [] a.name (Value.scalar ("v" ++ a.name)) a.type
              (argumentChain fieldDataW a.name) 0)).flatten =
        [ValidationError.mk "bad a" "a"] := by
    show
      ([validateRecursive [] "a" (Value.scalar "va") (GType.scalar "String")
            (argumentChain fieldDataW "a") 0,
          validateRecursive [] "b" (Value.scalar "vb") (GType.scalar "String")
            (argumentChain fieldDataW "b") 0]).flatten =
        [ValidationError.mk "bad a" "a"]
    rw [e1, e2]
    rfl
  constructor
  · have := h.1
    rw [hflat] at this
    exact this
  · have h2 :=
      (h.2 Nat (fun _ => Result.ok 7) (fun _ => Result.ok 7)
        (by rw [hflat]; decide)).1
    rw [hflat] at h2
    exact h2

/-- Claim C4: at an input-object node, the object-targeted rules of the
incoming chain plus the type-level chain run against the whole value; if
any fails exactly those violations are returned and no field descent
happens; if all pass and the validate mark is false the result is empty
whatever the fields hold; if the mark is true every declared field is
recursed at path `path.fieldName` with its own chain and depth reset to
0, and the results are concatenated. -/
theorem validateRecursive_object_node (env : List InputObjectType)
    (path : String) (value : Value) (tname : String) (t : InputObjectType)
    (validations : List Validation) (listDepth : Nat)
    (ht : findType env tname = some t) (hv : value ≠ Value.null) :
    validateRecursive env path value (GType.inputObject tname) validations
        listDepth =
      if (runRules
            ((validations ++ t.validations).filter
              (fun v => v.target == ValidationTarget.object))
            value path).isEmpty then
        if t.validate then
          match value with
          | Value.obj objFields =>
            (t.fields.map
                (fun f =>
                  match lookupField objFields f.name with
                  | none => []
                  | some fv =>
                    validateRecursive env (path ++ "." ++ f.name) fv f.type
                      (f.validations.getD []) 0)).flatten
          | _ => []
        else []
      else
        runRules
          ((validations ++ t.validations).filter
            (fun v => v.target == ValidationTarget.object))
          value path := by
  cases value with
  | null => exact absurd rfl hv
  | scalar s =>
    rw [validateRecursive]
    rw [ht]
    all_goals simp
  | list items =>
    rw [validateRecursive]
    rw [ht]
    all_goals simp
  | obj objFields =>
    simp only [validateRecursive, ht, validateFields_eq_map_flatten]

/-- Concrete schema for the claim C4 witness: the validate mark of the
type is false, so a field that would fail is never inspected. -/
def inputObjectW : InputObjectType :=
  InputObjectType.mk "T"
    [InputField.mk "x" (GType.scalar "String")
      (some [Validation.mk ValidationTarget.scalar 0 (fun _ _ => some "xfail")])]
    [] false

/-- Witness for claim C4: with no object rule failing and the validate
mark false, validation returns empty without inspecting the failing
field. -/
theorem validateRecursive_object_node_witness :
    validateRecursive [inputObjectW] "arg" (Value.obj [("x", Value.scalar "v")])
        (GType.inputObject "T") [] 0 =
      [] := by
  have h :=
    validateRecursive_object_node [inputObjectW] "arg"
      (Value.obj [("x", Value.scalar "v")]) "T" inputObjectW [] 0 rfl
      (by simp)
  rw [h]
  decide

/-- The unshift loop prepends all occurrences: the resulting chain is the
reversed occurrence list in front of the pre-existing chain. -/
theorem applyDirectiveOccurrences_eq_reverse_append
    (newRules : List Validation) (chain : List Validation) :
    applyDirectiveOccurrences newRules chain = newRules.reverse ++ chain := by
  induction newRules generalizing chain with
  | nil => rfl
  | cons r rest ih =>
    show applyDirectiveOccurrences rest (r :: chain) = _
    rw [ih]
    simp

/-- Counterexample to claim C5: two scalar rules declared in the order
first, second on one argument are prepended by the compile pass, so the
violations come back in the reverse of declaration order. -/
theorem scalar_chain_declaration_order_counterexample :
    validateRecursive [] "arg" (Value.scalar "v") (GType.scalar "String")
        (applyDirectiveOccurrences
          [Validation.mk ValidationTarget.scalar 0 (fun _ _ => some "first"),
            Validation.mk ValidationTarget.scalar 0 (fun _ _ => some "second")]
          [])
        0 =
      [ValidationError.mk "second" "arg", ValidationError.mk "first" "arg"] ∧
    [ValidationError.mk "second" "arg", ValidationError.mk "first" "arg"] ≠
      [ValidationError.mk "first" "arg", ValidationError.mk "second" "arg"] := by
  constructor
  · rw [validateRecursive_scalar]
    decide
  · decide

/-- Claim C5 as amended: for a scalar leaf whose chain was built by the
compile pass from a list of directive occurrences, every failing rule
contributes exactly one violation at the leaf path, later rules still run
after earlier failures, and the violations appear in the reverse of the
declaration order of the occurrences (followed by those of the
pre-existing chain). -/
theorem validateRecursive_scalar_leaf_order (env : List InputObjectType)
    (path : String) (s : String) (sname : String)
    (newRules existing : List Validation) (listDepth : Nat) :
    validateRecursive env path (Value.scalar s) (GType.scalar sname)
        (applyDirectiveOccurrences newRules existing) listDepth =
      ((newRules.reverse ++ existing).filter
          (fun v => v.target == ValidationTarget.scalar)).filterMap
        (fun v =>
          (v.fn (Value.scalar s) path).map
            (fun msg => ValidationError.mk msg path)) := by
  rw [validateRecursive_scalar, runRules_eq_filterMap,
    applyDirectiveOccurrences_eq_reverse_append]

/-- The field loop of the marker is monotone in the recursive call: a
stronger oracle preserves every defined answer. -/
theorem markValidateFields_mono (env : List InputObjectType)
    (rec₁ rec₂ : InputObjectType → Option Bool)
    (hmono : ∀ t b, rec₁ t = some b → rec₂ t = some b) (selfName : String) :
    ∀ (fields : List InputField) (b : Bool),
      markValidateFields env rec₁ selfName fields = some b →
        markValidateFields env rec₂ selfName fields = some b := by
  intro fields
  induction fields with
  | nil => intro b h; exact h
  | cons f rest ih =>
    intro b h
    simp only [markValidateFields] at h ⊢
    cases hu : unwrapType f.type with
    | inputObject n =>
      simp only [hu] at h ⊢
      by_cases hn : n = selfName
      · rw [if_pos hn] at h ⊢
        exact ih b h
      · rw [if_neg hn] at h ⊢
        cases hf : findType env n with
        | none =>
          rw [hf] at h
          cases hvs : f.validations.isSome with
          | true => rw [hvs] at h; exact h
          | false => rw [hvs] at h; exact ih b h
        | some t2 =>
          rw [hf] at h
          have h2 :
              (match rec₁ t2 with
                | none => none
                | some true => some true
                | some false => markValidateFields env rec₁ selfName rest) =
                some b := h
          show
            (match rec₂ t2 with
              | none => none
              | some true => some true
              | some false => markValidateFields env rec₂ selfName rest) =
              some b
          cases hr : rec₁ t2 with
          | none => rw [hr] at h2; cases h2
          | some br =>
            rw [hr] at h2
            rw [hmono t2 br hr]
            cases br with
            | true => exact h2
            | false => exact ih b h2
    | scalar sname =>
      simp only [hu] at h ⊢
      cases hvs : f.validations.isSome with
      | true => rw [hvs] at h; exact h
      | false => rw [hvs] at h; exact ih b h
    | list inner =>
      simp only [hu] at h ⊢
      cases hvs : f.validations.isSome with
      | true => rw [hvs] at h; exact h
      | false => rw [hvs] at h; exact ih b h
    | nonNull inner =>
      simp only [hu] at h ⊢
      cases hvs : f.validations.isSome with
      | true => rw [hvs] at h; exact h
      | false => rw [hvs] at h; exact ih b h

/-- One extra unit of fuel preserves every defined answer of the
marker. -/
theorem markValidate_mono_succ (env : List InputObjectType) :
    ∀ (fuel : Nat) (t : InputObjectType) (b : Bool),
      markValidateInputObjectRecursive env fuel t = some b →
        markValidateInputObjectRecursive env (fuel + 1) t = some b := by
  intro fuel
  induction fuel with
  | zero => intro t b h; cases h
  | succ m ih =>
    intro t b h
    simp only [markValidateInputObjectRecursive] at h ⊢
    exact markValidateFields_mono env _ _ ih t.name t.fields b h

/-- Fuel monotonicity of the marker. -/
theorem markValidate_mono_le (env : List InputObjectType) {m n : Nat}
    (hmn : m ≤ n) :
    ∀ (t : InputObjectType) (b : Bool),
      markValidateInputObjectRecursive env m t = some b →
        markValidateInputObjectRecursive env n t = some b := by
  induction hmn with
  | refl => exact fun t b h => h
  | step _ ih => exact fun t b h => markValidate_mono_succ env _ t b (ih t b h)

/-- Defined answers of the marker agree across fuel amounts. -/
theorem markValidate_det (env : List InputObjectType) {m n : Nat}
    {t : InputObjectType} {b b' : Bool}
    (h1 : markValidateInputObjectRecursive env m t = some b)
    (h2 : markValidateInputObjectRecursive env n t = some b') : b = b' := by
  rcases le_total m n with hmn | hnm
  · have := markValidate_mono_le env hmn t b h1
    rw [h2] at this
    exact (Option.some.injEq _ _ ▸ this).symm
  · have := markValidate_mono_le env hnm t b' h2
    rw [h1] at this
    exact Option.some.injEq _ _ ▸ this

theorem markValidateFields_characterisation (env : List InputObjectType)
    (m : Nat) (selfName : String) :
    ∀ (fields : List InputField) (b : Bool),
      markValidateFields env (markValidateInputObjectRecursive env m) selfName
          fields =
        some b →
        (b = true ↔ ∃ f ∈ fields, markFieldForces env selfName f) := by
  intro fields
  induction fields with
  | nil =>
    intro b h
    cases h
    simp
  | cons f rest ih =>
    intro b h
    have hmem : ∀ (hiff : b = true ↔ ∃ g ∈ rest, markFieldForces env selfName g)
        (hnothead : ¬markFieldForces env selfName f),
        (b = true ↔ ∃ g ∈ f :: rest, markFieldForces env selfName g) := by
      intro hiff hnothead
      constructor
      · intro hb
        rcases hiff.mp hb with ⟨g, hg, hforce⟩
        exact ⟨g, List.mem_cons_of_mem f hg, hforce⟩
      · rintro ⟨g, hg, hforce⟩
        rcases List.mem_cons.mp hg with rfl | hg2
        · exact absurd hforce hnothead
        · exact hiff.mpr ⟨g, hg2, hforce⟩
    simp only [markValidateFields] at h
    cases hu : unwrapType f.type with
    | inputObject n =>
      simp only [hu] at h
      by_cases hn : n = selfName
      · rw [if_pos hn] at h
        refine hmem (ih b h) ?_
        simp only [markFieldForces, hu]
        rintro ⟨hne, _⟩
        exact hne hn
      · rw [if_neg hn] at h
        cases hf : findType env n with
        | none =>
          rw [hf] at h
          cases hvs : f.validations.isSome with
          | true =>
            rw [hvs] at h
            have h2 : some true = some b := h
            cases h2
            refine iff_of_true rfl ⟨f, List.mem_cons_self f rest, ?_⟩
            simp only [markFieldForces, hu]
            exact ⟨hn, Or.inr ⟨hf, hvs⟩⟩
          | false =>
            rw [hvs] at h
            have h2 :
                markValidateFields env
                    (markValidateInputObjectRecursive env m) selfName rest =
                  some b := h
            refine hmem (ih b h2) ?_
            simp only [markFieldForces, hu]
            rintro ⟨_, ⟨t2, ht2, _⟩ | ⟨_, hsome⟩⟩
            · rw [hf] at ht2; cases ht2
            · rw [hvs] at hsome; cases hsome
        | some t2 =>
          rw [hf] at h
          have h2 :
              (match markValidateInputObjectRecursive env m t2 with
                | none => none
                | some true => some true
                | some false =>
                  markValidateFields env
                    (markValidateInputObjectRecursive env m) selfName rest) =
                some b := h
          cases hr : markValidateInputObjectRecursive env m t2 with
          | none =>
            rw [hr] at h2
            cases h2
          | some br =>
            rw [hr] at h2
            cases br with
            | true =>
              have h3 : some true = some b := h2
              cases h3
              refine iff_of_true rfl ⟨f, List.mem_cons_self f rest, ?_⟩
              simp only [markFieldForces, hu]
              exact ⟨hn, Or.inl ⟨t2, hf, m, hr⟩⟩
            | false =>
              have h3 :
                  markValidateFields env
                      (markValidateInputObjectRecursive env m) selfName rest =
                    some b := h2
              refine hmem (ih b h3) ?_
              simp only [markFieldForces, hu]
              rintro ⟨_, ⟨t2a, ht2a, ma, hma⟩ | ⟨hnone, _⟩⟩
              · rw [hf] at ht2a
                cases ht2a
                cases markValidate_det env hr hma
              · rw [hf] at hnone; cases hnone
    | scalar sname =>
      simp only [hu] at h
      cases hvs : f.validations.isSome with
      | true =>
        rw [hvs] at h
        have h2 : some true = some b := h
        cases h2
        refine iff_of_true rfl ⟨f, List.mem_cons_self f rest, ?_⟩
        simp only [markFieldForces, hu]
        exact hvs
      | false =>
        rw [hvs] at h
        have h2 :
            markValidateFields env (markValidateInputObjectRecursive env m)
                selfName rest =
              some b := h
        refine hmem (ih b h2) ?_
        simp only [markFieldForces, hu]
        intro hforce
        rw [hvs] at hforce
        cases hforce
    | list inner =>
      simp only [hu] at h
      cases hvs : f.validations.isSome with
      | true =>
        rw [hvs] at h
        have h2 : some true = some b := h
        cases h2
        refine iff_of_true rfl ⟨f, List.mem_cons_self f rest, ?_⟩
        simp only [markFieldForces, hu]
        exact hvs
      | false =>
        rw [hvs] at h
        have h2 :
            markValidateFields env (markValidateInputObjectRecursive env m)
                selfName rest =
              some b := h
        refine hmem (ih b h2) ?_
        simp only [markFieldForces, hu]
        intro hforce
        rw [hvs] at hforce
        cases hforce
    | nonNull inner =>
      simp only [hu] at h
      cases hvs : f.validations.isSome with
      | true =>
        rw [hvs] at h
        have h2 : some true = some b := h
        cases h2
        refine iff_of_true rfl ⟨f, List.mem_cons_self f rest, ?_⟩
        simp only [markFieldForces, hu]
        exact hvs
      | false =>
        rw [hvs] at h
        have h2 :
            markValidateFields env (markValidateInputObjectRecursive env m)
                selfName rest =
              some b := h
        refine hmem (ih b h2) ?_
        simp only [markFieldForces, hu]
        intro hforce
        rw [hvs] at hforce
        cases hforce

/-- A type carrying only a type-level object rule: no field carries a
rule and no field type is an input object. -/
def objRuleOnlyType : InputObjectType :=
  InputObjectType.mk "T0" [InputField.mk "x" (GType.scalar "String") none]
    [Validation.mk ValidationTarget.object 0 (fun _ _ => some "objfail")] false

/-- Counterexample to claim C6: a direct object-level rule on the type
makes the spec condition true, but the marker computed from the source
never consults the type-level chain and yields false. -/
theorem marker_spec_condition_counterexample :
    specNeedsValidation [objRuleOnlyType] 5 objRuleOnlyType = some true ∧
    markValidateInputObjectRecursive [objRuleOnlyType] 5 objRuleOnlyType =
      some false := by
  constructor
  · decide
  · decide

/-- Claim C6 as amended: the validate mark of a type is true exactly when
some field has an unwrapped type different from the type itself and
either that unwrapped type is an input-object type whose own mark is
true, or it is not an input-object type and the field carries a rule.  A
direct object-level rule on the type, a rule on a field whose unwrapped
type is an input-object type, and a self-typed field never force the
mark. -/
theorem mark_validate_characterisation (env : List InputObjectType)
    (t : InputObjectType) (fuel : Nat) (b : Bool)
    (h : markValidateInputObjectRecursive env fuel t = some b) :
    b = true ↔ ∃ f ∈ t.fields, markFieldForces env t.name f := by
  cases fuel with
  | zero => cases h
  | succ m => exact markValidateFields_characterisation env m t.name t.fields b h

/-- An input-object type whose single field has input-object type B. -/
def inputObjectA : InputObjectType :=
  InputObjectType.mk "A" [InputField.mk "bfield" (GType.inputObject "B") none]
    [] false

/-- An input-object type with one rule-carrying scalar field. -/
def inputObjectB : InputObjectType :=
  InputObjectType.mk "B"
    [InputField.mk "x" (GType.scalar "String")
      (some [Validation.mk ValidationTarget.scalar 0 (fun _ _ => some "m")])]
    [] false

/-- Schema with an acyclic reference A to B. -/
def envAB : List InputObjectType := [inputObjectA, inputObjectB]

/-- Witness for the amended claim C6: the mark of A is true, so some
field of A satisfies the forcing condition. -/
theorem mark_validate_characterisation_witness :
    ∃ f ∈ inputObjectA.fields, markFieldForces envAB inputObjectA.name f :=
  (mark_validate_characterisation envAB inputObjectA 2 true (by decide)).mp rfl

/-- First half of a mutually referential pair of input-object types. -/
def mutualA : InputObjectType :=
  InputObjectType.mk "MutA"
    [InputField.mk "b" (GType.inputObject "MutB") none] [] false

/-- Second half of a mutually referential pair of input-object types. -/
def mutualB : InputObjectType :=
  InputObjectType.mk "MutB"
    [InputField.mk "a" (GType.inputObject "MutA") none] [] false

/-- Schema with two mutually referential input-object types. -/
def envMutual : List InputObjectType := [mutualA, mutualB]

/-- On the mutually referential pair, no amount of fuel makes the marker
return: each call on one type immediately recurses into the other. -/
theorem mutual_cycle_none (n : Nat) :
    markValidateInputObjectRecursive envMutual n mutualA = none ∧
    markValidateInputObjectRecursive envMutual n mutualB = none := by
  induction n with
  | zero => exact ⟨rfl, rfl⟩
  | succ m ih =>
    constructor
    · show
        (match markValidateInputObjectRecursive envMutual m mutualB with
          | none => none
          | some true => some true
          | some false =>
            markValidateFields envMutual
              (markValidateInputObjectRecursive envMutual m) "MutA" []) =
          none
      rw [ih.2]
    · show
        (match markValidateInputObjectRecursive envMutual m mutualA with
          | none => none
          | some true => some true
          | some false =>
            markValidateFields envMutual
              (markValidateInputObjectRecursive envMutual m) "MutB" []) =
          none
      rw [ih.1]

/-- Counterexample to claim C7: the marker has no memoisation, and on a
schema with two mutually referential input-object types it never
terminates. -/
theorem marker_mutual_reference_counterexample :
    ¬markTerminates envMutual mutualA := by
  rintro ⟨fuel, b, h⟩
  rw [(mutual_cycle_none fuel).1] at h
  cases h

/-- With a recursion oracle never consulted (every input-object field
type is the type itself), the field loop terminates and returns whether
some non-input-object field carries a rule. -/
theorem markValidateFields_self_only (env : List InputObjectType)
    (recur : InputObjectType → Option Bool) (selfName : String) :
    ∀ fields : List InputField,
      (fields.all (fun f =>
          match unwrapType f.type with
          | GType.inputObject n => n == selfName
          | _ => true)) = true →
        markValidateFields env recur selfName fields =
          some
            (fields.any (fun f =>
              match unwrapType f.type with
              | GType.inputObject _ => false
              | _ => f.validations.isSome)) := by
  intro fields
  induction fields with
  | nil => intro _; rfl
  | cons f rest ih =>
    intro hall
    simp only [List.all_cons, Bool.and_eq_true] at hall
    obtain ⟨pf, prest⟩ := hall
    simp only [markValidateFields, List.any_cons]
    cases hu : unwrapType f.type with
    | inputObject n =>
      rw [hu] at pf
      have pf2 : (n == selfName) = true := pf
      have hns : n = selfName := eq_of_beq pf2
      simp only [hu]
      rw [if_pos hns]
      rw [ih prest]
      rw [Bool.false_or]
    | scalar sname =>
      simp only [hu]
      cases hvs : f.validations.isSome with
      | true => rw [if_pos rfl, Bool.true_or]
      | false =>
        rw [if_neg (by simp), Bool.false_or]
        exact ih prest
    | list inner =>
      simp only [hu]
      cases hvs : f.validations.isSome with
      | true => rw [if_pos rfl, Bool.true_or]
      | false =>
        rw [if_neg (by simp), Bool.false_or]
        exact ih prest
    | nonNull inner =>
      simp only [hu]
      cases hvs : f.validations.isSome with
      | true => rw [if_pos rfl, Bool.true_or]
      | false =>
        rw [if_neg (by simp), Bool.false_or]
        exact ih prest

/-- Claim C7 as amended: the marker terminates (with any positive fuel)
on a type whose input-object-typed fields all point back at the type
itself, because the identity test skips them; its value is whether some
other field carries a rule, so direct-field marking still works.  As the
counterexample shows, the recursion is not memoised and mutual reference
does not terminate. -/
theorem mark_self_reference_terminates (env : List InputObjectType)
    (t : InputObjectType) (fuel : Nat)
    (hself :
      (t.fields.all (fun f =>
          match unwrapType f.type with
          | GType.inputObject n => n == t.name
          | _ => true)) = true) :
    markValidateInputObjectRecursive env (fuel + 1) t =
      some
        (t.fields.any (fun f =>
          match unwrapType f.type with
          | GType.inputObject _ => false
          | _ => f.validations.isSome)) :=
  markValidateFields_self_only env
    (markValidateInputObjectRecursive env fuel) t.name t.fields hself

/-- A directly self-referential input-object type with one rule-carrying
scalar field. -/
def selfRefType : InputObjectType :=
  InputObjectType.mk "Own"
    [InputField.mk "me" (GType.inputObject "Own") none,
      InputField.mk "x" (GType.scalar "String")
        (some [Validation.mk ValidationTarget.scalar 0 (fun _ _ => some "m")])]
    [] false

/-- Schema with the self-referential type. -/
def envSelfRef : List InputObjectType := [selfRefType]

/-- Witness for the amended claim C7: on the self-referential type the
marker returns after one unit of fuel, and the rule on the scalar field
still forces the mark. -/
theorem mark_self_reference_terminates_witness :
    markValidateInputObjectRecursive envSelfRef 1 selfRefType = some true := by
  rw [mark_self_reference_terminates envSelfRef selfRefType 0 (by decide)]
  decide

/-- A scalar-targeted rule running an arbitrary predicate on the value. -/
def mkScalarRule (g : Value → Option String) : Validation :=
  Validation.mk ValidationTarget.scalar 0 (fun v _ => g v)

/-- A schema with one marked input-object type T whose field x carries an
arbitrary scalar rule. -/
def scalarRuleEnvT (g : Value → Option String) : List InputObjectType :=
  [InputObjectType.mk "T"
    [InputField.mk "x" (GType.scalar "String") (some [mkScalarRule g])]
    [] true]

theorem validateRecursive_mkScalarRule (env : List InputObjectType)
    (g : Value → Option String) (p s : String) (listDepth : Nat) :
    validateRecursive env p (Value.scalar s) (GType.scalar "String")
        [mkScalarRule g] listDepth =
      match g (Value.scalar s) with
      | some msg => [ValidationError.mk msg p]
      | none => [] := by
  rw [validateRecursive_scalar]
  rw [show
    ([mkScalarRule g].filter (fun v => v.target == ValidationTarget.scalar)) =
      [mkScalarRule g] from rfl]
  rw [runRules_eq_filterMap]
  cases hg : g (Value.scalar s) with
  | none => simp [mkScalarRule, hg]
  | some msg => simp [mkScalarRule, hg]

theorem validateItems_scalar_paths (g : Value → Option String)
    (ss : List String) (p : String) :
    ∀ i : Nat,
      validateItems [] p (ss.map Value.scalar) (GType.scalar "String")
          [mkScalarRule g] 1 i =
        ((ss.enumFrom i).map
            (fun q =>
              match g (Value.scalar q.2) with
              | some msg =>
                [ValidationError.mk msg (p ++ "[" ++ toString q.1 ++ "]")]
              | none => [])).flatten := by
  induction ss with
  | nil => intro i; simp [validateItems]
  | cons shead rest ih =>
    intro i
    rw [List.map_cons, validateItems]
    rw [validateRecursive_mkScalarRule]
    rw [ih (i + 1)]
    simp [List.enumFrom]

theorem validateRecursive_objT (g : Value → Option String) (p s : String)
    (listDepth : Nat) :
    validateRecursive (scalarRuleEnvT g) p (Value.obj [("x", Value.scalar s)])
        (GType.inputObject "T") [] listDepth =
      match g (Value.scalar s) with
      | some msg => [ValidationError.mk msg (p ++ "." ++ "x")]
      | none => [] := by
  rw [validateRecursive]
  show
    validateFields (scalarRuleEnvT g) p [("x", Value.scalar s)]
        [InputField.mk "x" (GType.scalar "String") (some [mkScalarRule g])] =
      _
  rw [validateFields_eq_map_flatten]
  show
    validateRecursive (scalarRuleEnvT g) (p ++ "." ++ "x") (Value.scalar s)
          (GType.scalar "String") [mkScalarRule g] 0 ++
        [] =
      _
  rw [validateRecursive_mkScalarRule]
  cases hg : g (Value.scalar s) <;> simp [hg]
  simp

/-- Claim C8: violation paths compose correctly.  With the root path
being the argument name: a failing item of a list argument reports at
`arg[index]`, a failing scalar argument reports at `arg`, a failing field
x of an object argument reports at `arg.x`, and a failing field inside a
list item reports at `arg[0].x`, all without separator duplication. -/
theorem violation_path_composition (g : Value → Option String)
    (ss : List String) (s : String) :
    validateRecursive [] "arg" (Value.list (ss.map Value.scalar))
        (GType.list (GType.scalar "String")) [mkScalarRule g] 0 =
      ((ss.enum).map
          (fun q =>
            match g (Value.scalar q.2) with
            | some msg =>
              [ValidationError.mk msg ("arg" ++ "[" ++ toString q.1 ++ "]")]
            | none => [])).flatten ∧
    validateFieldArguments []
        (FieldData.mk [FieldArg.mk "arg" (GType.scalar "String")]
          (some [("arg", [mkScalarRule g])]))
        [("arg", Value.scalar s)] =
      (match g (Value.scalar s) with
        | some msg => [ValidationError.mk msg "arg"]
        | none => []) ∧
    validateRecursive (scalarRuleEnvT g) "arg"
        (Value.obj [("x", Value.scalar s)]) (GType.inputObject "T") [] 0 =
      (match g (Value.scalar s) with
        | some msg => [ValidationError.mk msg "arg.x"]
        | none => []) ∧
    validateRecursive (scalarRuleEnvT g) "arg"
        (Value.list [Value.obj [("x", Value.scalar s)]])
        (GType.list (GType.inputObject "T")) [] 0 =
      (match g (Value.scalar s) with
        | some msg => [ValidationError.mk msg "arg[0].x"]
        | none => []) := by
  refine ⟨?_, ?_, ?_, ?_⟩
  · rw [validateRecursive]
    rw [show
      ([mkScalarRule g].filter
          (fun v =>
            v.target == ValidationTarget.list && v.listDepth == 0)) =
        [] from rfl]
    rw [show runRules [] (Value.list (ss.map Value.scalar)) "arg" = [] from rfl]
    rw [if_pos List.isEmpty_nil]
    show
      validateItems [] "arg" (ss.map Value.scalar) (GType.scalar "String")
          [mkScalarRule g] 1 0 =
        _
    rw [validateItems_scalar_paths g ss "arg" 0]
    rfl
  · show
      [] ++
          validateRecursive [] "arg" (Value.scalar s) (GType.scalar "String")
            [mkScalarRule g] 0 =
        _
    rw [validateRecursive_mkScalarRule]
    cases hg : g (Value.scalar s) <;> simp [hg]
  · rw [validateRecursive_objT g "arg" s 0]
    cases hg : g (Value.scalar s) <;> simp [hg]
  · rw [validateRecursive]
    rw [show
      (([] : List Validation).filter
          (fun v =>
            v.target == ValidationTarget.list && v.listDepth == 0)) =
        [] from rfl]
    rw [show
      runRules [] (Value.list [Value.obj [("x", Value.scalar s)]]) "arg" =
        [] from rfl]
    rw [if_pos List.isEmpty_nil]
    rw [validateItems]
    rw [validateItems]
    rw [validateRecursive_objT g ("arg" ++ "[" ++ toString 0 ++ "]") s 1]
    cases hg : g (Value.scalar s) <;> simp only [hg] <;> rfl

end GQLValid
